import Mathlib

/-!
Shallow embedding of the k2rbac ticket/authorization engine
(`src/auth.ts`, `src/account.ts`, `src/role.ts`) and proofs of the
spec's testable properties.

Conventions of the embedding:
* stateful code (the process-wide role cache and user→account FIFO
  cache, both static fields of class `Auth`) is modelled by explicit
  state passing over `AuthState`;
* asynchronous storage calls (`db.find`, `db.findOne`) are modelled by
  a pure `Db` record supplied to each operation;
* `Date.now()` is modelled by an explicit `now : Nat` argument
  (UTC milliseconds);
* thrown `K2Error`s become `Except K2Error _` results;
* machine integers do not occur (all timestamps are Nats in the code's
  value range, JS numbers are exact on them).
-/

namespace K2RBAC

/-- Modelled from the spec (§7 error taxonomy) and the external
`@frogfish/k2error` package, which is not part of this repository:
the `ServiceError` codes that the sources reference
(`INVALID_TOKEN`, `FORBIDDEN`, `NOT_FOUND`, `VALIDATION_ERROR`,
`SERVICE_ERROR`, `SYSTEM_ERROR`, `AUTH_ERROR`). -/
inductive ServiceError where
  | invalidToken
  | forbidden
  | notFound
  | validationError
  | serviceError
  | systemError
  | authError
  deriving DecidableEq

/-- Modelled from the external `@frogfish/k2error` package: a thrown
`K2Error` carries an error code, a message and an opaque trace id. -/
structure K2Error where
  error : ServiceError
  message : String
  trace : String
  deriving DecidableEq

/-- `TokenPayload` from `src/auth.ts`: userId, array of role IDs,
restricted-mode flag. -/
structure TokenPayload where
  userId : String
  roles : List String
  restrictedMode : Bool
  deriving DecidableEq

/-- `Ticket` from `src/types.ts` (the file itself is not under `src/`;
fields are modelled from the spec §3 data model, which matches every
use in the sources): user, account, permissions, restricted flag,
`expiresAt` UTC-millisecond timestamp, and an optional checksum.
`permissions` is an `Option` because `Auth.allow` explicitly guards
against a runtime-absent permission set (`!ticket.permissions`). -/
structure Ticket where
  user : String
  account : String
  permissions : Option (List String)
  restricted : Bool
  expiresAt : Nat
  checksum : Option String := none
  deriving DecidableEq

/- ------------------------------------------------------------------
JSON serialization model (the sources call the JS builtin
`JSON.stringify`, which is a library external to the repository).
------------------------------------------------------------------- -/

/-- Modelled from the JS builtin `JSON.stringify` on strings: escape
the quote and backslash characters with a backslash.  (Control
characters, which `JSON.stringify` also escapes, never occur in the
identifiers and permission tags this code serializes; leaving them
unescaped keeps the encoding faithful on the reachable inputs and
injective on all inputs, which is the property the checksum relies
on.) -/
def jsonEscape : List Char → List Char
  | [] => []
  | c :: cs =>
    if c = '"' ∨ c = '\\' then '\\' :: c :: jsonEscape cs
    else c :: jsonEscape cs

/-- The characters of the `JSON.stringify` encoding of a string list,
without the surrounding brackets: comma-separated quoted strings. -/
def jsonItems : List String → List Char
  | [] => []
  | [s] => '"' :: (jsonEscape s.data ++ ['"'])
  | s :: s' :: rest => '"' :: (jsonEscape s.data ++ ['"', ','] ++ jsonItems (s' :: rest))

/-- Modelled from the JS builtin `JSON.stringify` applied to an array
of strings: `["a","b"]`. -/
def jsonStringifyList (l : List String) : String :=
  ⟨'[' :: (jsonItems l ++ [']'])⟩

/-- `JSON.stringify(ticket.permissions)` as it is concatenated into the
checksum data: JS string concatenation of `undefined` yields the text
`"undefined"` when the field is absent. -/
def jsonPermsField : Option (List String) → String
  | none => "undefined"
  | some l => jsonStringifyList l

/-- Little-endian decimal digit characters of a positive natural; the
first argument is structural fuel (any bound on the digit count). -/
def natDigitsAux : Nat → Nat → List Char
  | 0, _ => []
  | _ + 1, 0 => []
  | fuel + 1, n + 1 =>
    Nat.digitChar ((n + 1) % 10) :: natDigitsAux fuel ((n + 1) / 10)

/-- Modelled from the JS builtin `Number.prototype.toString` on the
natural numbers this code renders (timestamps): the usual decimal
representation. -/
def natToString (n : Nat) : String :=
  if n = 0 then "0" else ⟨(natDigitsAux n n).reverse⟩

/-- Modelled from the Node `crypto` library (external to the
repository): `crypto.createHash("sha256").update(data).digest("hex")`.
The spec (§4.4) relies on the digest being tamper-evident — any change
of the hashed data changes the digest — so SHA-256 is idealized here as
an injective digest function, the standard collision-free idealization
of a cryptographic hash. -/
def sha256hex (data : String) : String :=
  "sha256:" ++ data

/- ------------------------------------------------------------------
Configuration constants of src/auth.ts (environment defaults; the
model takes the defaults, i.e. no environment overrides).
------------------------------------------------------------------- -/

/-- Modelled from the `ms` npm library (external to the repository),
for the duration strings this code uses: `"15m"` and `"7d"`. -/
def ms (s : String) : Nat :=
  if s = "15m" then 900000
  else if s = "7d" then 604800000
  else 0

def JWT_SECRET : String := "your_jwt_secret_key"

def JWT_EXPIRATION : String := "15m"

def JWT_REFRESH_SECRET : String := "your_jwt_refresh_secret_key"

def JWT_REFRESH_EXPIRATION : String := "7d"

/-- `TICKET_EXPIRATION = process.env.JWT_EXPIRATION || "15m"` (note the
source reads the JWT_EXPIRATION variable here). -/
def TICKET_EXPIRATION : String := "15m"

def MAX_USER_ACCOUNTS_BUFFER : Nat := 1000

/-- `const ticketExpirationInMillis = ms(TICKET_EXPIRATION)`. -/
def ticketExpirationInMillis : Nat := ms TICKET_EXPIRATION

/- ------------------------------------------------------------------
The Auth class.  Its two static caches are the explicit state.
------------------------------------------------------------------- -/

/-- The static mutable fields of class `Auth` in `src/auth.ts`:
`Auth.roles` (role-id → permission list, `undefined` until first
populated), `Auth.userAccounts` (user-id → account-id object) and
`Auth.userAccountsBuffer` (FIFO queue of inserted user ids).  JS
objects are modelled as insertion-ordered association lists with
unique keys. -/
structure AuthState where
  roles : Option (List (String × List String))
  userAccounts : List (String × String)
  userAccountsBuffer : List String
  deriving DecidableEq

/-- The initial static state of the class: `roles` unset, empty user
account cache. -/
def AuthState.initial : AuthState := ⟨none, [], []⟩

/-- JS object property read, `obj[k]`. -/
def objGet {α : Type} (m : List (String × α)) (k : String) : Option α :=
  (m.find? (fun p => p.1 = k)).map (fun p => p.2)

/-- JS object property write, `obj[k] = v`: overwrite in place if the
key exists, otherwise append (insertion order preserved). -/
def objSet {α : Type} (m : List (String × α)) (k : String) (v : α) :
    List (String × α) :=
  if m.any (fun p => p.1 = k) then
    m.map (fun p => if p.1 = k then (k, v) else p)
  else m ++ [(k, v)]

/-- JS `delete obj[k]`. -/
def objDelete {α : Type} (m : List (String × α)) (k : String) :
    List (String × α) :=
  m.filter (fun p => ¬ p.1 = k)

/-- `RoleDocument` from `src/role.ts` (the `BaseDocument` fields other
than `_uuid` play no role here). -/
structure RoleDocument where
  uuid : String
  name : String
  permissions : List String
  deriving DecidableEq

/-- `AccountDocument` from `src/account.ts` (only `_uuid` is consumed
by the auth core). -/
structure AccountDocument where
  uuid : String
  deriving DecidableEq

/-- The storage collaborator (`K2DB`, external to the repository) as
consumed by the auth core: `db.find("_roles", …)` returns all roles;
`db.findOne("_accounts", { _owner: userId })` returns the account
owned by a user or nothing. -/
structure Db where
  rolesFind : List RoleDocument
  accountFindOne : String → Option AccountDocument

/-- An `Auth` instance; the constructor stores the ticket inside the
`Role` and `Account` collaborator instances (`src/auth.ts`
constructor), which is observationally the same as keeping the
ticket. -/
structure Auth where
  ticket : Ticket

/- ------------------------------------------------------------------
Auth.allow (src/auth.ts lines 96-120)
------------------------------------------------------------------- -/

/-- `JSON.stringify(ticket)` as interpolated into the permission-denied
message (modelled JS builtin; `undefined` option fields are rendered
as absent, as `JSON.stringify` drops them). -/
def Ticket.jsonRepr (t : Ticket) : String :=
  "\x7b\"user\":" ++ jsonStringifyList [t.user] ++
  ",\"account\":" ++ jsonStringifyList [t.account] ++
  (match t.permissions with
   | none => ""
   | some ps => ",\"permissions\":" ++ jsonStringifyList ps) ++
  ",\"restricted\":" ++ toString t.restricted ++
  ",\"expiresAt\":" ++ natToString t.expiresAt ++
  (match t.checksum with
   | none => ""
   | some c => ",\"checksum\":" ++ jsonStringifyList [c]) ++ "\x7d"

/-- `Auth.allow(ticket, permissions, trace?)`: throws `FORBIDDEN` when
the ticket is absent or has no permission set; returns `true` as soon
as one required permission is contained in `ticket.permissions`;
otherwise throws `FORBIDDEN`. -/
def Auth.allow (ticket : Option Ticket) (permissions : List String)
    (trace : Option String) : Except K2Error Bool :=
  match ticket with
  | none =>
    .error ⟨ServiceError.forbidden, "Permission denied",
            trace.getD "fdezixsvfrg1xjqal6ar"⟩
  | some t =>
    match t.permissions with
    | none =>
      .error ⟨ServiceError.forbidden, "Permission denied",
              trace.getD "fdezixsvfrg1xjqal6ar"⟩
    | some ps =>
      if permissions.any (fun permission => ps.contains permission) then
        .ok true
      else
        .error ⟨ServiceError.forbidden,
                "Permission denied: " ++ t.jsonRepr,
                trace.getD "09ij3rc687wc0ltqbf6a"⟩

/- ------------------------------------------------------------------
JWT model (the `jsonwebtoken` npm library, external to the repository)
------------------------------------------------------------------- -/

/-- Modelled from the `jsonwebtoken` library (external to the
repository): a presented token is either absent (`!token`), a string
that does not parse/verify, or a token signed over a payload with
issued-at and expiry claims under some secret. -/
inductive Token where
  | absent
  | malformed (raw : String)
  | signed (payload : TokenPayload) (iat exp : Nat) (secret : String)
  deriving DecidableEq

/-- The two failure classes of `jwt.verify`: `TokenExpiredError` and
every other `JsonWebTokenError` (bad signature, parse failure). -/
inductive JwtError where
  | expired
  | invalid
  deriving DecidableEq

/-- Modelled from `jsonwebtoken`: `jwt.sign(payload, secret,
{ expiresIn })` stamps issued-at `now` and expiry `now + expiresIn`. -/
def jwtSign (payload : TokenPayload) (secret : String)
    (expiresInMillis : Nat) (now : Nat) : Token :=
  .signed payload now (now + expiresInMillis) secret

/-- Modelled from `jsonwebtoken`: `jwt.verify(token, secret)` fails
with a generic `JsonWebTokenError` on an absent/unparseable token or a
signature under a different secret, fails with `TokenExpiredError`
when the signature verifies but the expiry claim has passed, and
otherwise recovers the signed payload verbatim. -/
def jwtVerify (token : Token) (secret : String) (now : Nat) :
    Except JwtError TokenPayload :=
  match token with
  | .absent => .error .invalid
  | .malformed _ => .error .invalid
  | .signed payload _ exp s =>
    if s ≠ secret then .error .invalid
    else if exp ≤ now then .error .expired
    else .ok payload

/-- `AuthTokens` from `src/auth.ts`. -/
structure AuthTokens where
  accessToken : Token
  refreshToken : Token
  deriving DecidableEq

/-- `Auth.generateTokens(payload)`: throws `INVALID_TOKEN` when the
payload is absent, otherwise signs an access token (access secret,
access TTL) and a refresh token (refresh secret, refresh TTL). -/
def Auth.generateTokens (payload : Option TokenPayload) (now : Nat) :
    Except K2Error AuthTokens :=
  match payload with
  | none =>
    .error ⟨ServiceError.invalidToken, "Token payload not provided",
            "efo0gsdgy9smd3e3xhn1"⟩
  | some p =>
    .ok ⟨jwtSign p JWT_SECRET (ms JWT_EXPIRATION) now,
         jwtSign p JWT_REFRESH_SECRET (ms JWT_REFRESH_EXPIRATION) now⟩

/- ------------------------------------------------------------------
Ticket checksum (src/auth.ts lines 174-202)
------------------------------------------------------------------- -/

/-- The string hashed by `checksumTicket`/`verifyTicket`:
`ticket.user + ticket.account + JSON.stringify(ticket.permissions) +
ticket.restricted.toString() + ticket.expiresAt.toString()`. -/
def checksumData (t : Ticket) : String :=
  t.user ++ t.account ++ jsonPermsField t.permissions ++
  toString t.restricted ++ natToString t.expiresAt

/-- `Auth.checksumTicket(ticket)` (private): stamp
`ticket.checksum = sha256hex(data)` and return the ticket. -/
def Auth.checksumTicket (t : Ticket) : Ticket :=
  { t with checksum := some (sha256hex (checksumData t)) }

/-- `Auth.verifyTicket(ticket)`: false when the checksum is absent
(or the empty string, which is falsy in JS), otherwise recompute the
digest and compare for exact equality. -/
def Auth.verifyTicket (t : Ticket) : Bool :=
  match t.checksum with
  | none => false
  | some c => if c = "" then false else sha256hex (checksumData t) = c

/-- `Auth.getSystemTicket()`: the fixed stamped system ticket. -/
def Auth.getSystemTicket (now : Nat) : Ticket :=
  Auth.checksumTicket
    { user := "system"
      account := "system"
      permissions := some ["system"]
      restricted := false
      expiresAt := now + ticketExpirationInMillis }

/- ------------------------------------------------------------------
The two process-wide caches (src/auth.ts lines 204-253)
------------------------------------------------------------------- -/

/-- `Auth.cacheUserAccount(userId, accountId)` (private): when the
FIFO buffer is at capacity, shift the oldest-inserted user id off the
buffer and delete its map entry; then insert the new pair and push the
user id onto the buffer. -/
def Auth.cacheUserAccount (s : AuthState) (userId accountId : String) :
    AuthState :=
  let s :=
    if MAX_USER_ACCOUNTS_BUFFER ≤ s.userAccountsBuffer.length then
      match s.userAccountsBuffer with
      | [] => s
      | oldest :: rest =>
        { s with userAccounts := objDelete s.userAccounts oldest
                 userAccountsBuffer := rest }
    else s
  { s with userAccounts := objSet s.userAccounts userId accountId
           userAccountsBuffer := s.userAccountsBuffer ++ [userId] }

/-- `Account.findOne(query)` from `src/account.ts` for the query
`{ _owner: userId }` issued by `Auth.getUserAccount`: gate on
`Auth.allow(this.ticket, ["system", "admin"])`, then return the
account found by storage or throw `NOT_FOUND`. -/
def Account.findOne (ticket : Ticket) (db : Db) (userId : String) :
    Except K2Error AccountDocument :=
  match Auth.allow (some ticket) ["system", "admin"]
      (some "m9cnhmxkft3rkkasfkgf") with
  | .error e => .error e
  | .ok _ =>
    match db.accountFindOne userId with
    | some account => .ok account
    | none =>
      .error ⟨ServiceError.notFound, "Account not found",
              "s6v5wnchZZu5gjqw763x"⟩

/-- `Auth.getUserAccount(userId)` (private): return the cached account
id on a hit; on a miss resolve through `Account.findOne` (which gates
on the constructor ticket), cache the result and return it.  (The
source's `if (!result) throw new Error(...)` branch is unreachable:
`findOne` throws instead of returning a falsy value.) -/
def Auth.getUserAccount (auth : Auth) (db : Db) (s : AuthState)
    (userId : String) : Except K2Error (String × AuthState) :=
  match objGet s.userAccounts userId with
  | some accountId => .ok (accountId, s)
  | none =>
    match Account.findOne auth.ticket db userId with
    | .error e => .error e
    | .ok result =>
      .ok (result.uuid, Auth.cacheUserAccount s userId result.uuid)

/-- `Auth.cacheRoles()` (private): seed the role map with
`system/admin/member` mapping to themselves, then overlay every role
found in storage, keyed by `_uuid`.  (`Role.find` from `src/role.ts`
performs no permission gate and just forwards to storage.) -/
def Auth.cacheRoles (db : Db) : List (String × List String) :=
  db.rolesFind.foldl (fun m role => objSet m role.uuid role.permissions)
    [("system", ["system"]), ("admin", ["admin"]), ("member", ["member"])]

/-- The role map `Auth.getRolePermissions` works with: the cached map
when populated, otherwise the freshly built one. -/
def rolesMapOf (db : Db) (s : AuthState) : List (String × List String) :=
  match s.roles with
  | some m => m
  | none => Auth.cacheRoles db

/-- The insertion-ordered key set built by the `map[permission] = true`
loop followed by `Object.keys(map)`. -/
def collectPerms (rolesMap : List (String × List String))
    (roles : List String) : List String :=
  roles.foldl
    (fun keys role =>
      match objGet rolesMap role with
      | some perms =>
        perms.foldl (fun ks p => if p ∈ ks then ks else ks ++ [p]) keys
      | none => keys)
    []

/-- `Auth.getRolePermissions(roles)` (private): populate the role
cache on first use, then return the deduplicated union of the
permission lists of every role id present in the map (unknown ids
silently skipped), in first-insertion order. -/
def Auth.getRolePermissions (db : Db) (s : AuthState)
    (roles : List String) : List String × AuthState :=
  let rolesMap := rolesMapOf db s
  (collectPerms rolesMap roles, { s with roles := some rolesMap })

/- ------------------------------------------------------------------
Auth.getTicket (src/auth.ts lines 51-92)
------------------------------------------------------------------- -/

/-- `Auth.getTicket(token)`: reject an absent token with
`INVALID_TOKEN`; verify the JWT, mapping `TokenExpiredError` to an
`INVALID_TOKEN` error with message "Token expired" and every other
verification failure to an `INVALID_TOKEN` error; resolve permissions
from the role cache and the account id from the user-account cache
(hitting storage through the gated `Account.findOne` on a miss);
assemble the ticket with `expiresAt = now + ticketExpirationInMillis`
and return it freshly stamped. -/
def Auth.getTicket (auth : Auth) (db : Db) (s : AuthState)
    (token : Token) (now : Nat) : Except K2Error (Ticket × AuthState) :=
  match token with
  | .absent =>
    .error ⟨ServiceError.invalidToken, "Token not provided",
            "x34evca67aq8gr3hiu1u"⟩
  | _ =>
    match jwtVerify token JWT_SECRET now with
    | .error .expired =>
      .error ⟨ServiceError.invalidToken, "Token expired",
              "aoapi6lrv4m8rti6c7wq"⟩
    | .error .invalid =>
      .error ⟨ServiceError.invalidToken, "Invalid token",
              "l2u8lwwbiiam7gfdsw5m"⟩
    | .ok payload =>
      let pr := Auth.getRolePermissions db s payload.roles
      match Auth.getUserAccount auth db pr.2 payload.userId with
      | .error e => .error e
      | .ok (accountId, s2) =>
        .ok (Auth.checksumTicket
              { user := payload.userId
                account := accountId
                permissions := some pr.1
                restricted := payload.restrictedMode
                expiresAt := now + ticketExpirationInMillis }, s2)

/- ------------------------------------------------------------------
Auxiliary definitions used by the verification (not part of the
embedded program).
------------------------------------------------------------------- -/

/-- Value of a little-endian decimal digit character list (decoder for
`natDigitsAux`, used to prove `natToString` injective). -/
def digitsVal : List Char → Nat
  | [] => 0
  | c :: cs => (c.toNat - 48) + 10 * digitsVal cs

/-- Sequential insertion of user→account pairs through
`Auth.cacheUserAccount` (the spec's "inserting N distinct users
sequentially"). -/
def insertAllUA (s : AuthState) (l : List (String × String)) : AuthState :=
  l.foldl (fun acc p => Auth.cacheUserAccount acc p.1 p.2) s

/- ------------------------------------------------------------------
Concrete fixtures used to witness the theorems below on executable
inputs.
------------------------------------------------------------------- -/

/-- A concrete token payload. -/
def pFix : TokenPayload := ⟨"u1", ["r1", "admin", "ghost"], false⟩

/-- A concrete storage state: two roles, one account owned by `u1`. -/
def dbFix : Db :=
  ⟨[⟨"r1", "reader", ["read"]⟩, ⟨"r2", "writer", ["write"]⟩],
   fun u => if u = "u1" then some ⟨"acct1"⟩ else none⟩

/-- An `Auth` instance constructed with the system ticket. -/
def authSysFix : Auth := ⟨Auth.getSystemTicket 0⟩

/-- A token signed at time 0 with the access secret and TTL. -/
def tokFix : Token := jwtSign pFix JWT_SECRET (ms JWT_EXPIRATION) 0

/-- A concrete successful `getTicket` run at time 5. -/
def resFix : Except K2Error (Ticket × AuthState) :=
  Auth.getTicket authSysFix dbFix AuthState.initial tokFix 5

/-- The ticket produced by `resFix`. -/
def ticketFix : Ticket :=
  match resFix with
  | .ok (t, _) => t
  | .error _ => ⟨"", "", none, false, 0, none⟩

/-- The cache state produced by `resFix`. -/
def stateFix : AuthState :=
  match resFix with
  | .ok (_, s) => s
  | .error _ => AuthState.initial

/-- First user inserted in the FIFO-eviction scenario. -/
def u0Fix : String × String := (natToString 0, "acct")

/-- The 1000 users inserted after `u0Fix` in the FIFO scenario. -/
def restFix : List (String × String) :=
  (List.range MAX_USER_ACCOUNTS_BUFFER).map (fun i => (natToString (i + 1), "acct"))

/- ==================================================================
Helper lemmas
=================================================================== -/

theorem strData_inj {s t : String} (h : s.data = t.data) : s = t := by
  cases s; cases t; exact congrArg String.mk h

theorem digitChar_val {d : Nat} (hd : d < 10) :
    (Nat.digitChar d).toNat - 48 = d := by
  interval_cases d <;> rfl

theorem digitsVal_natDigitsAux :
    ∀ fuel n, n ≤ fuel → digitsVal (natDigitsAux fuel n) = n := by
  intro fuel
  induction fuel with
  | zero =>
    intro n hn
    interval_cases n
    rfl
  | succ f ih =>
    intro n hn
    match n with
    | 0 => rfl
    | m + 1 =>
      have hdiv : (m + 1) / 10 ≤ f := by
        have h1 : (m + 1) / 10 < m + 1 := Nat.div_lt_self (Nat.succ_pos m) (by decide)
        omega
      simp only [natDigitsAux, digitsVal, ih _ hdiv,
        digitChar_val (Nat.mod_lt _ (by decide))]
      omega

theorem natToString_inj : Function.Injective natToString := by
  intro a b h
  by_cases ha : a = 0 <;> by_cases hb : b = 0
  · omega
  · exfalso
    simp only [natToString, if_pos ha, if_neg hb] at h
    have hdata : ('0' :: []) = (natDigitsAux b b).reverse := congrArg String.data h
    have : natDigitsAux b b = ['0'] := by
      have := congrArg List.reverse hdata
      simpa using this.symm
    have hval := digitsVal_natDigitsAux b b le_rfl
    rw [this] at hval
    simp [digitsVal] at hval
    exact hb hval.symm
  · exfalso
    simp only [natToString, if_neg ha, if_pos hb] at h
    have hdata : (natDigitsAux a a).reverse = ('0' :: []) := congrArg String.data h
    have : natDigitsAux a a = ['0'] := by
      have := congrArg List.reverse hdata
      simpa using this
    have hval := digitsVal_natDigitsAux a a le_rfl
    rw [this] at hval
    simp [digitsVal] at hval
    exact ha hval.symm
  · simp only [natToString, if_neg ha, if_neg hb] at h
    have hdata := congrArg String.data h
    simp only at hdata
    have hrev := congrArg List.reverse hdata
    simp only [List.reverse_reverse] at hrev
    have va := digitsVal_natDigitsAux a a le_rfl
    have vb := digitsVal_natDigitsAux b b le_rfl
    rw [hrev] at va
    omega

theorem jsonEscape_append_inj :
    ∀ (a b x y : List Char),
      jsonEscape a ++ '"' :: x = jsonEscape b ++ '"' :: y → a = b ∧ x = y := by
  intro a
  induction a with
  | nil =>
    intro b x y h
    cases b with
    | nil =>
      simp only [jsonEscape, List.nil_append] at h
      exact ⟨rfl, (List.cons.injEq .. ▸ h).2⟩
    | cons c cs =>
      exfalso
      simp only [jsonEscape, List.nil_append] at h
      by_cases hc : c = '"' ∨ c = '\\'
      · rw [if_pos hc] at h
        have := (List.cons.injEq .. ▸ h).1
        exact absurd this (by decide)
      · rw [if_neg hc] at h
        have := (List.cons.injEq .. ▸ h).1
        push_neg at hc
        exact hc.1 this.symm
  | cons c cs ih =>
    intro b x y h
    cases b with
    | nil =>
      exfalso
      simp only [jsonEscape, List.nil_append] at h
      by_cases hc : c = '"' ∨ c = '\\'
      · rw [if_pos hc] at h
        have := (List.cons.injEq .. ▸ h).1
        exact absurd this (by decide)
      · rw [if_neg hc] at h
        have := (List.cons.injEq .. ▸ h).1
        push_neg at hc
        exact hc.1 this
    | cons d ds =>
      simp only [jsonEscape] at h
      by_cases hc : c = '"' ∨ c = '\\' <;> by_cases hd : d = '"' ∨ d = '\\'
      · rw [if_pos hc, if_pos hd] at h
        simp only [List.cons_append, List.cons.injEq] at h
        obtain ⟨-, hcd, htail⟩ := h
        obtain ⟨hcs, hxy⟩ := ih ds x y htail
        exact ⟨by rw [hcd, hcs], hxy⟩
      · exfalso
        rw [if_pos hc, if_neg hd] at h
        have := (List.cons.injEq .. ▸ h).1
        push_neg at hd
        exact hd.2 this.symm
      · exfalso
        rw [if_neg hc, if_pos hd] at h
        have := (List.cons.injEq .. ▸ h).1
        push_neg at hc
        exact hc.2 this
      · rw [if_neg hc, if_neg hd] at h
        simp only [List.cons_append, List.cons.injEq] at h
        obtain ⟨hcd, htail⟩ := h
        obtain ⟨hcs, hxy⟩ := ih ds x y htail
        exact ⟨by rw [hcd, hcs], hxy⟩

theorem jsonEscape_inj {a b : List Char} (h : jsonEscape a = jsonEscape b) :
    a = b :=
  (jsonEscape_append_inj a b [] [] (by rw [h])).1

theorem jsonItems_cons (s : String) (rest : List String) :
    jsonItems (s :: rest) =
      '"' :: (jsonEscape s.data ++ '"' ::
        (match rest with
         | [] => []
         | _ :: _ => ',' :: jsonItems rest)) := by
  cases rest with
  | nil => rfl
  | cons s' r =>
    simp only [jsonItems]
    rw [List.append_assoc]
    rfl

theorem jsonItems_inj : ∀ l l' : List String, jsonItems l = jsonItems l' → l = l' := by
  intro l
  induction l with
  | nil =>
    intro l' h
    cases l' with
    | nil => rfl
    | cons t ts =>
      exfalso
      rw [jsonItems_cons] at h
      exact (List.noConfusion h : False)
  | cons s ss ih =>
    intro l' h
    cases l' with
    | nil =>
      exfalso
      rw [jsonItems_cons] at h
      exact (List.noConfusion h : False)
    | cons t ts =>
      rw [jsonItems_cons, jsonItems_cons] at h
      have h2 := (List.cons.injEq .. ▸ h).2
      obtain ⟨hst, hm⟩ := jsonEscape_append_inj _ _ _ _ h2
      have hs : s = t := strData_inj hst
      cases ss with
      | nil =>
        cases ts with
        | nil => rw [hs]
        | cons u us => exact absurd hm (by simp)
      | cons u us =>
        cases ts with
        | nil => exact absurd hm (by simp)
        | cons v vs =>
          simp only [List.cons.injEq] at hm
          rw [hs, ih _ hm.2]

theorem jsonStringifyList_inj : Function.Injective jsonStringifyList := by
  intro l l' h
  have hdata := congrArg String.data h
  simp only [jsonStringifyList] at hdata
  have h2 := (List.cons.injEq .. ▸ hdata).2
  exact jsonItems_inj _ _ (List.append_cancel_right h2)

theorem jsonStringifyList_head (l : List String) :
    (jsonStringifyList l).data = '[' :: (jsonItems l ++ [']']) := rfl

theorem jsonPermsField_inj : Function.Injective jsonPermsField := by
  intro p p' h
  cases p with
  | none =>
    cases p' with
    | none => rfl
    | some l =>
      exfalso
      simp only [jsonPermsField] at h
      have hdata := congrArg String.data h
      rw [jsonStringifyList_head] at hdata
      have : 'u' = '[' := (List.cons.injEq .. ▸ hdata).1
      exact absurd this (by decide)
  | some l =>
    cases p' with
    | none =>
      exfalso
      simp only [jsonPermsField] at h
      have hdata := congrArg String.data h
      rw [jsonStringifyList_head] at hdata
      have : '[' = 'u' := (List.cons.injEq .. ▸ hdata).1
      exact absurd this (by decide)
    | some l' =>
      simp only [jsonPermsField] at h
      rw [jsonStringifyList_inj h]

theorem sha256hex_inj : Function.Injective sha256hex := by
  intro x y h
  have hdata := congrArg String.data h
  simp only [sha256hex, String.data_append] at hdata
  exact strData_inj (List.append_cancel_left hdata)

theorem checksumData_checksum_irrel (t : Ticket) (c : Option String) :
    checksumData {t with checksum := c} = checksumData t := rfl

theorem checksumData_user_inj {t : Ticket} {u : String}
    (h : checksumData {t with user := u} = checksumData t) : u = t.user := by
  have hd := congrArg String.data h
  simp only [checksumData, String.data_append, List.append_assoc] at hd
  exact strData_inj (List.append_cancel_right hd)

theorem checksumData_account_inj {t : Ticket} {a : String}
    (h : checksumData {t with account := a} = checksumData t) : a = t.account := by
  have hd := congrArg String.data h
  simp only [checksumData, String.data_append, List.append_assoc] at hd
  exact strData_inj (List.append_cancel_right (List.append_cancel_left hd))

theorem checksumData_permissions_inj {t : Ticket} {p : Option (List String)}
    (h : checksumData {t with permissions := p} = checksumData t) :
    p = t.permissions := by
  have hd := congrArg String.data h
  simp only [checksumData, String.data_append, List.append_assoc] at hd
  have h1 := List.append_cancel_left (List.append_cancel_left hd)
  exact jsonPermsField_inj (strData_inj (List.append_cancel_right h1))

theorem checksumData_restricted_inj {t : Ticket} {b : Bool}
    (h : checksumData {t with restricted := b} = checksumData t) :
    b = t.restricted := by
  have hd := congrArg String.data h
  simp only [checksumData, String.data_append, List.append_assoc] at hd
  have h1 := List.append_cancel_left (List.append_cancel_left
    (List.append_cancel_left hd))
  by_contra hne
  have hlen := congrArg List.length h1
  simp only [List.length_append] at hlen
  have e4 : ((toString true).data).length = 4 := rfl
  have e5 : ((toString false).data).length = 5 := rfl
  cases b <;> cases hb : t.restricted
  · exact hne hb.symm
  · rw [hb] at hlen; omega
  · rw [hb] at hlen; omega
  · exact hne hb.symm

theorem checksumData_expiresAt_inj {t : Ticket} {e : Nat}
    (h : checksumData {t with expiresAt := e} = checksumData t) :
    e = t.expiresAt := by
  have hd := congrArg String.data h
  simp only [checksumData, String.data_append, List.append_assoc] at hd
  have h1 := List.append_cancel_left (List.append_cancel_left
    (List.append_cancel_left (List.append_cancel_left hd)))
  exact natToString_inj (strData_inj h1)

theorem sha256hex_ne_empty (s : String) : sha256hex s ≠ "" := by
  intro h
  have hd := congrArg String.data h
  simp [sha256hex, String.data_append] at hd

theorem verifyTicket_checksumTicket (t : Ticket) :
    Auth.verifyTicket (Auth.checksumTicket t) = true := by
  simp [Auth.verifyTicket, Auth.checksumTicket, sha256hex_ne_empty,
    checksumData_checksum_irrel]

theorem verifyTicket_of_stale_checksum {t : Ticket} {c : String}
    (hc : t.checksum = some c) (hne : sha256hex (checksumData t) ≠ c) :
    Auth.verifyTicket t = false := by
  simp only [Auth.verifyTicket, hc]
  by_cases h0 : c = ""
  · simp [h0]
  · simp [h0, hne]

theorem objGet_nil {α : Type} (k : String) : objGet ([] : List (String × α)) k = none := rfl

theorem objGet_eq_none_iff {α : Type} (m : List (String × α)) (k : String) :
    objGet m k = none ↔ ∀ p ∈ m, p.1 ≠ k := by
  simp only [objGet, Option.map_eq_none', List.find?_eq_none,
    decide_eq_true_eq]

theorem objGet_of_mem_nodup {α : Type} {m : List (String × α)}
    (hnd : (m.map Prod.fst).Nodup) {p : String × α} (hp : p ∈ m) :
    objGet m p.1 = some p.2 := by
  induction m with
  | nil => cases hp
  | cons q m ih =>
    simp only [List.map_cons, List.nodup_cons] at hnd
    rcases List.mem_cons.1 hp with h | h
    · subst h
      simp [objGet, List.find?]
    · have hne : q.1 ≠ p.1 := by
        intro he
        exact hnd.1 (he ▸ List.mem_map_of_mem Prod.fst h)
      simp only [objGet, List.find?]
      rw [decide_eq_false hne]
      exact ih hnd.2 h

theorem objSet_of_fresh {α : Type} {m : List (String × α)} {k : String}
    (h : ∀ p ∈ m, p.1 ≠ k) (v : α) : objSet m k v = m ++ [(k, v)] := by
  have : m.any (fun p => p.1 = k) = false := by
    simp only [List.any_eq_false, decide_eq_true_eq]
    exact h
  simp [objSet, this]

theorem objDelete_of_absent {α : Type} {m : List (String × α)} {k : String}
    (h : ∀ p ∈ m, p.1 ≠ k) : objDelete m k = m := by
  simp only [objDelete]
  apply List.filter_eq_self.2
  intro p hp
  simpa using h p hp

theorem objGet_cons {α : Type} (q : String × α) (m : List (String × α)) (k : String) :
    objGet (q :: m) k = if q.1 = k then some q.2 else objGet m k := by
  by_cases hq : q.1 = k
  · simp [objGet, List.find?, hq]
  · simp only [objGet, List.find?]
    rw [decide_eq_false hq, if_neg hq]

theorem objGet_mapUpdate_ne {α : Type} (m : List (String × α)) {k k' : String}
    (h : k ≠ k') (v : α) :
    objGet (m.map (fun p => if p.1 = k' then (k', v) else p)) k = objGet m k := by
  induction m with
  | nil => rfl
  | cons q m ih =>
    by_cases hq : q.1 = k'
    · simp only [List.map_cons, if_pos hq]
      rw [objGet_cons, objGet_cons, if_neg (fun he : (k', v).1 = k => h he.symm),
        if_neg (fun he : q.1 = k => h (hq ▸ he).symm)]
      exact ih
    · simp only [List.map_cons, if_neg hq]
      rw [objGet_cons, objGet_cons]
      by_cases hqk : q.1 = k
      · rw [if_pos hqk, if_pos hqk]
      · rw [if_neg hqk, if_neg hqk]
        exact ih

theorem objGet_append_single_ne {α : Type} (m : List (String × α)) {k k' : String}
    (h : k ≠ k') (v : α) : objGet (m ++ [(k', v)]) k = objGet m k := by
  induction m with
  | nil =>
    simp only [List.nil_append]
    rw [objGet_cons, if_neg (fun he : (k', v).1 = k => h he.symm)]
  | cons q m ih =>
    simp only [List.cons_append]
    rw [objGet_cons, objGet_cons]
    by_cases hqk : q.1 = k
    · rw [if_pos hqk, if_pos hqk]
    · rw [if_neg hqk, if_neg hqk]
      exact ih

theorem objGet_objSet_ne {α : Type} (m : List (String × α)) {k k' : String}
    (h : k ≠ k') (v : α) : objGet (objSet m k' v) k = objGet m k := by
  simp only [objSet]
  by_cases hk : m.any (fun p => p.1 = k') = true
  · rw [if_pos hk]
    exact objGet_mapUpdate_ne m h v
  · rw [if_neg hk]
    exact objGet_append_single_ne m h v

theorem objGet_objSet_self {α : Type} (m : List (String × α)) (k : String) (v : α) :
    objGet (objSet m k v) k = some v := by
  simp only [objSet]
  by_cases hk : m.any (fun p => p.1 = k) = true
  · rw [if_pos hk]
    induction m with
    | nil => simp at hk
    | cons q m ih =>
      by_cases hq : q.1 = k
      · simp only [List.map_cons, if_pos hq]
        rw [objGet_cons, if_pos rfl]
      · simp only [List.map_cons, if_neg hq]
        rw [objGet_cons, if_neg hq]
        apply ih
        simp only [List.any_cons, Bool.or_eq_true, decide_eq_true_eq] at hk
        rcases hk with h | h
        · exact absurd h hq
        · simpa using h
  · rw [if_neg hk]
    induction m with
    | nil =>
      simp only [List.nil_append]
      rw [objGet_cons, if_pos rfl]
    | cons q m ih =>
      simp only [List.any_cons, Bool.or_eq_true, decide_eq_true_eq] at hk
      push_neg at hk
      simp only [List.cons_append]
      rw [objGet_cons, if_neg hk.1]
      apply ih
      simpa using hk.2

theorem mem_dedupAppend (perms : List String) :
    ∀ (ks : List String) (q : String),
      q ∈ perms.foldl (fun ks p => if p ∈ ks then ks else ks ++ [p]) ks ↔
      q ∈ ks ∨ q ∈ perms := by
  induction perms with
  | nil => intro ks q; simp
  | cons a perms ih =>
    intro ks q
    simp only [List.foldl_cons]
    rw [ih]
    by_cases ha : a ∈ ks
    · rw [if_pos ha]
      constructor
      · rintro (h | h)
        · exact Or.inl h
        · exact Or.inr (List.mem_cons_of_mem a h)
      · rintro (h | h)
        · exact Or.inl h
        · rcases List.mem_cons.1 h with h | h
          · exact Or.inl (h ▸ ha)
          · exact Or.inr h
    · rw [if_neg ha]
      simp only [List.mem_append, List.mem_singleton, List.mem_cons]
      tauto

theorem nodup_dedupAppend (perms : List String) :
    ∀ ks : List String, ks.Nodup →
      (perms.foldl (fun ks p => if p ∈ ks then ks else ks ++ [p]) ks).Nodup := by
  induction perms with
  | nil => intro ks h; exact h
  | cons a perms ih =>
    intro ks h
    simp only [List.foldl_cons]
    apply ih
    by_cases ha : a ∈ ks
    · rwa [if_pos ha]
    · rw [if_neg ha]
      simp [List.nodup_append, h, ha]

theorem mem_collectPerms_aux (m : List (String × List String)) :
    ∀ (roles : List String) (ks : List String) (q : String),
      q ∈ roles.foldl
          (fun keys role =>
            match objGet m role with
            | some perms =>
              perms.foldl (fun ks p => if p ∈ ks then ks else ks ++ [p]) keys
            | none => keys) ks ↔
      q ∈ ks ∨ ∃ r ∈ roles, ∃ ps, objGet m r = some ps ∧ q ∈ ps := by
  intro roles
  induction roles with
  | nil => intro ks q; simp
  | cons r roles ih =>
    intro ks q
    simp only [List.foldl_cons]
    cases hr : objGet m r with
    | none =>
      rw [ih]
      constructor
      · rintro (h | ⟨r', hr', ps, hps, hq⟩)
        · exact Or.inl h
        · exact Or.inr ⟨r', List.mem_cons_of_mem r hr', ps, hps, hq⟩
      · rintro (h | ⟨r', hr', ps, hps, hq⟩)
        · exact Or.inl h
        · rcases List.mem_cons.1 hr' with he | hm
          · rw [he] at hps
            rw [hps] at hr
            cases hr
          · exact Or.inr ⟨r', hm, ps, hps, hq⟩
    | some perms =>
      rw [ih, mem_dedupAppend]
      constructor
      · rintro ((h | h) | ⟨r', hr', ps, hps, hq⟩)
        · exact Or.inl h
        · exact Or.inr ⟨r, List.mem_cons_self r roles, perms, hr, h⟩
        · exact Or.inr ⟨r', List.mem_cons_of_mem r hr', ps, hps, hq⟩
      · rintro (h | ⟨r', hr', ps, hps, hq⟩)
        · exact Or.inl (Or.inl h)
        · rcases List.mem_cons.1 hr' with he | hm
          · rw [he] at hps
            rw [hps] at hr
            cases hr
            exact Or.inl (Or.inr hq)
          · exact Or.inr ⟨r', hm, ps, hps, hq⟩

theorem mem_collectPerms (m : List (String × List String)) (roles : List String)
    (q : String) :
    q ∈ collectPerms m roles ↔
      ∃ r ∈ roles, ∃ ps, objGet m r = some ps ∧ q ∈ ps := by
  rw [collectPerms, mem_collectPerms_aux]
  simp

theorem nodup_collectPerms_aux (m : List (String × List String)) :
    ∀ (roles : List String) (ks : List String), ks.Nodup →
      (roles.foldl
          (fun keys role =>
            match objGet m role with
            | some perms =>
              perms.foldl (fun ks p => if p ∈ ks then ks else ks ++ [p]) keys
            | none => keys) ks).Nodup := by
  intro roles
  induction roles with
  | nil => intro ks h; exact h
  | cons r roles ih =>
    intro ks h
    simp only [List.foldl_cons]
    cases hr : objGet m r with
    | none => exact ih ks h
    | some perms => exact ih _ (nodup_dedupAppend perms ks h)

theorem nodup_collectPerms (m : List (String × List String)) (roles : List String) :
    (collectPerms m roles).Nodup :=
  nodup_collectPerms_aux m roles [] List.nodup_nil

theorem insertAllUA_append (s : AuthState) (l1 l2 : List (String × String)) :
    insertAllUA s (l1 ++ l2) = insertAllUA (insertAllUA s l1) l2 :=
  List.foldl_append _ _ _ _

theorem cacheUserAccount_below_cap {s : AuthState}
    (h : s.userAccountsBuffer.length < MAX_USER_ACCOUNTS_BUFFER) (u a : String) :
    Auth.cacheUserAccount s u a =
      { s with userAccounts := objSet s.userAccounts u a,
               userAccountsBuffer := s.userAccountsBuffer ++ [u] } := by
  simp only [Auth.cacheUserAccount]
  rw [if_neg (by omega)]

theorem cacheUserAccount_at_cap {s : AuthState} {k : String} {ks : List String}
    (hb : s.userAccountsBuffer = k :: ks)
    (h : MAX_USER_ACCOUNTS_BUFFER ≤ s.userAccountsBuffer.length) (u a : String) :
    Auth.cacheUserAccount s u a =
      { s with userAccounts := objSet (objDelete s.userAccounts k) u a,
               userAccountsBuffer := ks ++ [u] } := by
  simp only [Auth.cacheUserAccount]
  rw [if_pos h, hb]

theorem insertAllUA_spec :
    ∀ l : List (String × String),
      l.length ≤ MAX_USER_ACCOUNTS_BUFFER → (l.map Prod.fst).Nodup →
      insertAllUA AuthState.initial l = ⟨none, l, l.map Prod.fst⟩ := by
  intro l
  induction l using List.reverseRecOn with
  | nil => intro _ _; rfl
  | append_singleton l x ih =>
    intro hlen hnd
    simp only [List.length_append, List.length_singleton] at hlen
    have hnd2 := hnd
    simp only [List.map_append, List.map_singleton, List.nodup_append,
      List.nodup_singleton, List.disjoint_singleton] at hnd2
    rw [insertAllUA_append, ih (by omega) hnd2.1]
    have hsingle : insertAllUA ⟨none, l, l.map Prod.fst⟩ [x] =
        Auth.cacheUserAccount ⟨none, l, l.map Prod.fst⟩ x.1 x.2 := rfl
    rw [hsingle,
      cacheUserAccount_below_cap (by simp only [List.length_map]; omega)]
    have hfresh : ∀ p ∈ l, p.1 ≠ x.1 := by
      intro p hp he
      exact hnd2.2.2 (he ▸ List.mem_map_of_mem Prod.fst hp)
    rw [objSet_of_fresh hfresh]
    simp

theorem allow_ok_true_iff (ot : Option Ticket) (req : List String) (tr : Option String) :
    Auth.allow ot req tr = .ok true ↔
      ∃ t ps, ot = some t ∧ t.permissions = some ps ∧ ∃ q ∈ req, q ∈ ps := by
  cases ot with
  | none =>
    simp [Auth.allow]
  | some t =>
    cases hp : t.permissions with
    | none =>
      simp only [Auth.allow, hp]
      constructor
      · intro h; cases h
      · rintro ⟨t2, ps, ht2, hps, -⟩
        injection ht2 with h1
        rw [← h1, hp] at hps
        cases hps
    | some ps =>
      simp only [Auth.allow, hp]
      by_cases hreq : req.any (fun q => ps.contains q) = true
      · rw [if_pos hreq]
        simp only [List.any_eq_true, List.elem_iff] at hreq
        obtain ⟨q, hq, hmem⟩ := hreq
        simp only [true_iff]
        exact ⟨t, ps, rfl, hp, q, hq, hmem⟩
      · rw [if_neg hreq]
        constructor
        · intro h; cases h
        · rintro ⟨t2, ps2, ht2, hps2, q, hq, hmem⟩
          injection ht2 with h1
          rw [← h1, hp] at hps2
          injection hps2 with h2
          exact absurd (by
            simp only [List.any_eq_true, List.elem_iff]
            exact ⟨q, hq, h2 ▸ hmem⟩) hreq

theorem allow_error_forbidden (ot : Option Ticket) (req : List String)
    (tr : Option String) {e : K2Error} (he : Auth.allow ot req tr = .error e) :
    e.error = ServiceError.forbidden := by
  cases ot with
  | none =>
    simp only [Auth.allow] at he
    injection he with h
    rw [← h]
  | some t =>
    cases hp : t.permissions with
    | none =>
      simp only [Auth.allow, hp] at he
      injection he with h
      rw [← h]
    | some ps =>
      simp only [Auth.allow, hp] at he
      by_cases hreq : req.any (fun q => ps.contains q) = true
      · rw [if_pos hreq] at he; cases he
      · rw [if_neg hreq] at he
        injection he with h
        rw [← h]

theorem allow_ok_imp_true (ot : Option Ticket) (req : List String)
    (tr : Option String) {b : Bool} (hb : Auth.allow ot req tr = .ok b) :
    b = true := by
  cases ot with
  | none => simp [Auth.allow] at hb
  | some t =>
    cases hp : t.permissions with
    | none => simp [Auth.allow, hp] at hb
    | some ps =>
      simp only [Auth.allow, hp] at hb
      by_cases hreq : req.any (fun q => ps.contains q) = true
      · rw [if_pos hreq] at hb
        injection hb with h
        exact h.symm
      · rw [if_neg hreq] at hb; cases hb

theorem getTicket_ok_shape {auth : Auth} {db : Db} {s : AuthState} {tok : Token}
    {now : Nat} {t : Ticket} {s2 : AuthState}
    (h : Auth.getTicket auth db s tok now = .ok (t, s2)) :
    ∃ (u acc : String) (perms : List String) (r : Bool),
      t = Auth.checksumTicket
        ⟨u, acc, some perms, r, now + ticketExpirationInMillis, none⟩ := by
  cases tok with
  | absent => simp [Auth.getTicket] at h
  | malformed raw => simp [Auth.getTicket, jwtVerify] at h
  | signed p iat exp sec =>
    simp only [Auth.getTicket] at h
    split at h
    · cases h
    · cases h
    · rename_i payload heq
      split at h
      · cases h
      · rename_i acc s3 hacc
        injection h with h'
        have h1 := congrArg Prod.fst h'
        simp only at h1
        exact ⟨payload.userId, acc, _, payload.restrictedMode, h1.symm⟩

theorem objGet_foldl_objSet_of_absent :
    ∀ (l : List RoleDocument) (m : List (String × List String)) (k : String),
      (∀ d ∈ l, d.uuid ≠ k) →
      objGet (l.foldl (fun m r => objSet m r.uuid r.permissions) m) k =
        objGet m k := by
  intro l
  induction l with
  | nil => intro m k h; rfl
  | cons d l ih =>
    intro m k h
    simp only [List.foldl_cons]
    rw [ih _ _ (fun d' hd' => h d' (List.mem_cons_of_mem d hd'))]
    exact objGet_objSet_ne m
      (fun he => h d (List.mem_cons_self d l) he.symm) _

/- ==================================================================
Claim theorems
=================================================================== -/

/-- C1 (amended): `Auth.allow(ticket, required)` returns true if and
only if the intersection of `ticket.permissions` and `required` is
non-empty; in every other case — including an absent ticket, a ticket
with no permission set, or a ticket holding `"system"` when
`"system"` is not itself in the required list — it fails with a
FORBIDDEN error.  (`allow` grants no unconditional `"system"`
bypass.) -/
theorem claim1_allow_iff_intersection :
    ∀ (ot : Option Ticket) (req : List String) (tr : Option String),
      (Auth.allow ot req tr = .ok true ↔
        ∃ t ps, ot = some t ∧ t.permissions = some ps ∧ ∃ q ∈ req, q ∈ ps) ∧
      (∀ b, Auth.allow ot req tr = .ok b → b = true) ∧
      (∀ e, Auth.allow ot req tr = .error e → e.error = ServiceError.forbidden) :=
  fun ot req tr =>
    ⟨allow_ok_true_iff ot req tr,
     fun _ hb => allow_ok_imp_true ot req tr hb,
     fun _ he => allow_error_forbidden ot req tr he⟩

/-- C1 counterexample: a ticket whose permission set is exactly
`["system"]` is rejected by `Auth.allow` when asked for `["read"]`,
although the claim's "system bypass" asserts it must be allowed
unconditionally. -/
theorem claim1_counterexample :
    (Auth.allow (some ⟨"u", "a", some ["system"], false, 0, none⟩)
        ["read"] none).isOk = false ∧
    "system" ∈ ((⟨"u", "a", some ["system"], false, 0, none⟩ : Ticket).permissions.getD []) :=
  ⟨rfl, by decide⟩

/-- C1 witness: the amended characterization evaluated on a concrete
ticket whose permissions intersect the required list. -/
theorem claim1_witness :
    Auth.allow (some ⟨"u", "a", some ["read"], false, 0, none⟩)
      ["write", "read"] none = .ok true :=
  (claim1_allow_iff_intersection
      (some ⟨"u", "a", some ["read"], false, 0, none⟩) ["write", "read"] none).1.2
    ⟨_, ["read"], rfl, rfl, "read", by decide, by decide⟩

/-- C9 (confirmed): `Auth.allow` reads only the ticket's permissions
field — two tickets with the same permissions produce the same
success/failure outcome and the same error kind and trace, whatever
their `expiresAt` or `checksum` (the failure message may embed the
serialized ticket, so only code and trace are compared). -/
theorem claim9_allow_reads_only_permissions :
    ∀ (t1 t2 : Ticket) (req : List String) (tr : Option String),
      t1.permissions = t2.permissions →
      ((Auth.allow (some t1) req tr).isOk = (Auth.allow (some t2) req tr).isOk) ∧
      (∀ b, Auth.allow (some t1) req tr = .ok b ↔
            Auth.allow (some t2) req tr = .ok b) ∧
      (∀ e1 e2, Auth.allow (some t1) req tr = .error e1 →
        Auth.allow (some t2) req tr = .error e2 →
        e1.error = e2.error ∧ e1.trace = e2.trace) := by
  intro t1 t2 req tr hp
  cases hp2 : t2.permissions with
  | none =>
    have e1 : Auth.allow (some t1) req tr =
        .error ⟨ServiceError.forbidden, "Permission denied",
                tr.getD "fdezixsvfrg1xjqal6ar"⟩ := by
      simp only [Auth.allow, hp, hp2]
    have e2 : Auth.allow (some t2) req tr =
        .error ⟨ServiceError.forbidden, "Permission denied",
                tr.getD "fdezixsvfrg1xjqal6ar"⟩ := by
      simp only [Auth.allow, hp2]
    rw [e1, e2]
    refine ⟨rfl, fun b => Iff.rfl, fun f1 f2 h1 h2 => ?_⟩
    injection h1 with h1'
    injection h2 with h2'
    rw [← h1', ← h2']
    exact ⟨rfl, rfl⟩
  | some ps =>
    by_cases hreq : req.any (fun q => ps.contains q) = true
    · have e1 : Auth.allow (some t1) req tr = .ok true := by
        simp only [Auth.allow, hp, hp2]
        rw [if_pos hreq]
      have e2 : Auth.allow (some t2) req tr = .ok true := by
        simp only [Auth.allow, hp2]
        rw [if_pos hreq]
      rw [e1, e2]
      exact ⟨rfl, fun b => Iff.rfl, fun f1 f2 h1 h2 => by cases h1⟩
    · have e1 : Auth.allow (some t1) req tr =
          .error ⟨ServiceError.forbidden,
                  "Permission denied: " ++ t1.jsonRepr,
                  tr.getD "09ij3rc687wc0ltqbf6a"⟩ := by
        simp only [Auth.allow, hp, hp2]
        rw [if_neg hreq]
      have e2 : Auth.allow (some t2) req tr =
          .error ⟨ServiceError.forbidden,
                  "Permission denied: " ++ t2.jsonRepr,
                  tr.getD "09ij3rc687wc0ltqbf6a"⟩ := by
        simp only [Auth.allow, hp2]
        rw [if_neg hreq]
      rw [e1, e2]
      refine ⟨rfl, fun b => Iff.intro (fun h => by cases h) (fun h => by cases h),
        fun f1 f2 h1 h2 => ?_⟩
      injection h1 with h1'
      injection h2 with h2'
      rw [← h1', ← h2']
      exact ⟨rfl, rfl⟩

/-- C9 witness: an expired, checksum-free ticket and a fresh stamped
ticket with the same permissions are treated identically by `allow`. -/
theorem claim9_witness :
    (Auth.allow (some ⟨"u", "a", some ["read"], false, 0, none⟩)
        ["read"] none).isOk =
    (Auth.allow (some ⟨"v", "b", some ["read"], true, 999999999,
        some "stale"⟩) ["read"] none).isOk :=
  (claim9_allow_reads_only_permissions
      ⟨"u", "a", some ["read"], false, 0, none⟩
      ⟨"v", "b", some ["read"], true, 999999999, some "stale"⟩
      ["read"] none rfl).1

/-- C2 (amended): inside `getTicket`, a token whose signature verifies
but whose expiry claim has passed fails with the SAME error kind
`INVALID_TOKEN` as every other unverifiable token — the expired case
is distinguished only by its message ("Token expired") and trace id
("aoapi6lrv4m8rti6c7wq"), not by a distinct error kind; absent,
unparseable and wrongly-signed tokens fail with `INVALID_TOKEN` under
the other traces. -/
theorem claim2_expired_token_error :
    ∀ (auth : Auth) (db : Db) (s : AuthState) (now : Nat) (p : TokenPayload)
      (iat exp : Nat) (sec : String) (raw : String),
      (sec = JWT_SECRET → exp ≤ now →
        Auth.getTicket auth db s (.signed p iat exp sec) now =
          .error ⟨ServiceError.invalidToken, "Token expired",
                  "aoapi6lrv4m8rti6c7wq"⟩) ∧
      (Auth.getTicket auth db s .absent now =
        .error ⟨ServiceError.invalidToken, "Token not provided",
                "x34evca67aq8gr3hiu1u"⟩) ∧
      (Auth.getTicket auth db s (.malformed raw) now =
        .error ⟨ServiceError.invalidToken, "Invalid token",
                "l2u8lwwbiiam7gfdsw5m"⟩) ∧
      (sec ≠ JWT_SECRET →
        Auth.getTicket auth db s (.signed p iat exp sec) now =
          .error ⟨ServiceError.invalidToken, "Invalid token",
                  "l2u8lwwbiiam7gfdsw5m"⟩) := by
  intro auth db s now p iat exp sec raw
  refine ⟨fun hsec hexp => ?_, rfl, rfl, fun hsec => ?_⟩
  · subst hsec
    simp only [Auth.getTicket, jwtVerify]
    rw [if_neg (by simp), if_pos hexp]
  · simp only [Auth.getTicket, jwtVerify]
    rw [if_pos hsec]

/-- C2 counterexample: for a token signed at time 0 with the correct
secret and the 15-minute TTL, verified 16 minutes later, `getTicket`
surfaces the error kind `INVALID_TOKEN` (with message
"Token expired"), not a distinct TokenExpired kind. -/
theorem claim2_counterexample :
    Auth.getTicket ⟨Auth.getSystemTicket 0⟩ ⟨[], fun _ => none⟩
        AuthState.initial
        (jwtSign ⟨"u", [], false⟩ JWT_SECRET (ms JWT_EXPIRATION) 0)
        960000 =
      .error ⟨ServiceError.invalidToken, "Token expired",
              "aoapi6lrv4m8rti6c7wq"⟩ := by
  rfl

/-- C2 witness: the amended statement evaluated on the concrete
16-minutes-later scenario and on a concrete wrong-secret token. -/
theorem claim2_witness :
    Auth.getTicket ⟨Auth.getSystemTicket 0⟩ ⟨[], fun _ => none⟩
        AuthState.initial (.signed ⟨"u", [], false⟩ 0 900000 JWT_SECRET)
        960000 =
      .error ⟨ServiceError.invalidToken, "Token expired",
              "aoapi6lrv4m8rti6c7wq"⟩ ∧
    Auth.getTicket ⟨Auth.getSystemTicket 0⟩ ⟨[], fun _ => none⟩
        AuthState.initial (.signed ⟨"u", [], false⟩ 0 900000 "wrong") 5 =
      .error ⟨ServiceError.invalidToken, "Invalid token",
              "l2u8lwwbiiam7gfdsw5m"⟩ :=
  ⟨(claim2_expired_token_error ⟨Auth.getSystemTicket 0⟩ ⟨[], fun _ => none⟩
      AuthState.initial 960000 ⟨"u", [], false⟩ 0 900000 JWT_SECRET "").1
      rfl (by decide),
   (claim2_expired_token_error ⟨Auth.getSystemTicket 0⟩ ⟨[], fun _ => none⟩
      AuthState.initial 5 ⟨"u", [], false⟩ 0 900000 "wrong" "").2.2.2
      (by decide)⟩

/-- C3 (confirmed): every ticket handed out by the core carries a
freshly computed checksum — any successful `getTicket` result passes
`verifyTicket`, and `getSystemTicket` has permissions exactly
`["system"]` and a verifying checksum. -/
theorem claim3_tickets_freshly_stamped :
    (∀ (auth : Auth) (db : Db) (s : AuthState) (tok : Token) (now : Nat)
        (t : Ticket) (s2 : AuthState),
        Auth.getTicket auth db s tok now = .ok (t, s2) →
        Auth.verifyTicket t = true) ∧
    (∀ now : Nat,
        (Auth.getSystemTicket now).permissions = some ["system"] ∧
        Auth.verifyTicket (Auth.getSystemTicket now) = true) := by
  constructor
  · intro auth db s tok now t s2 h
    obtain ⟨u, acc, perms, r, ht⟩ := getTicket_ok_shape h
    rw [ht]
    exact verifyTicket_checksumTicket _
  · intro now
    exact ⟨rfl, verifyTicket_checksumTicket _⟩

/-- C3 witness: the concrete run `resFix` yields a ticket that passes
`verifyTicket`. -/
theorem claim3_witness : Auth.verifyTicket ticketFix = true :=
  claim3_tickets_freshly_stamped.1 authSysFix dbFix AuthState.initial
    tokFix 5 ticketFix stateFix rfl

/-- C7 (confirmed): signing a payload with `generateTokens` and
verifying the resulting access token before its expiry recovers the
payload — `userId`, role-id list and restricted flag — exactly as
given. -/
theorem claim7_sign_verify_roundtrip :
    ∀ (p : TokenPayload) (now now2 : Nat) (toks : AuthTokens),
      Auth.generateTokens (some p) now = .ok toks →
      now2 < now + ms JWT_EXPIRATION →
      jwtVerify toks.accessToken JWT_SECRET now2 = .ok p := by
  intro p now now2 toks hgen hlt
  simp only [Auth.generateTokens] at hgen
  injection hgen with h
  rw [← h]
  simp only [jwtSign, jwtVerify]
  rw [if_neg (by simp), if_neg (by omega)]

/-- C7 witness: the round trip evaluated on the concrete payload
`pFix`, signed at time 0 and verified at time 899999. -/
theorem claim7_witness :
    jwtVerify (AuthTokens.accessToken
        ⟨jwtSign pFix JWT_SECRET (ms JWT_EXPIRATION) 0,
         jwtSign pFix JWT_REFRESH_SECRET (ms JWT_REFRESH_EXPIRATION) 0⟩)
      JWT_SECRET 899999 = .ok pFix :=
  claim7_sign_verify_roundtrip pFix 0 899999 _ rfl (by decide)

/-- C8 (confirmed): for every successfully verified token, the
ticket's `expiresAt` equals the verification-time clock plus the fixed
configured ticket TTL, whatever expiry claim the token itself
carried. -/
theorem claim8_ticket_ttl :
    ∀ (auth : Auth) (db : Db) (s : AuthState) (tok : Token) (now : Nat)
      (t : Ticket) (s2 : AuthState),
      Auth.getTicket auth db s tok now = .ok (t, s2) →
      t.expiresAt = now + ticketExpirationInMillis := by
  intro auth db s tok now t s2 h
  obtain ⟨u, acc, perms, r, ht⟩ := getTicket_ok_shape h
  rw [ht]
  rfl

/-- C8 witness: the concrete run `resFix` (clock 5) yields
`expiresAt = 5 + ticketExpirationInMillis`. -/
theorem claim8_witness : ticketFix.expiresAt = 5 + ticketExpirationInMillis :=
  claim8_ticket_ttl authSysFix dbFix AuthState.initial tokFix 5
    ticketFix stateFix rfl

/-- C4 (confirmed, under the collision-free idealization of the
digest): mutating any single one of the fields `user`, `account`,
`permissions`, `restricted`, `expiresAt` of a stamped ticket without
re-stamping makes `verifyTicket` return false, and `verifyTicket` is
false whenever the checksum field is absent. -/
theorem claim4_mutation_invalidates :
    ∀ t : Ticket,
      (∀ u, u ≠ t.user →
        Auth.verifyTicket {Auth.checksumTicket t with user := u} = false) ∧
      (∀ a, a ≠ t.account →
        Auth.verifyTicket {Auth.checksumTicket t with account := a} = false) ∧
      (∀ p, p ≠ t.permissions →
        Auth.verifyTicket {Auth.checksumTicket t with permissions := p} = false) ∧
      (∀ b, b ≠ t.restricted →
        Auth.verifyTicket {Auth.checksumTicket t with restricted := b} = false) ∧
      (∀ e, e ≠ t.expiresAt →
        Auth.verifyTicket {Auth.checksumTicket t with expiresAt := e} = false) ∧
      (∀ t2 : Ticket, t2.checksum = none → Auth.verifyTicket t2 = false) := by
  intro t
  refine ⟨fun u hu => ?_, fun a ha => ?_, fun p hp => ?_, fun b hb => ?_,
    fun e he => ?_, fun t2 h2 => ?_⟩
  · apply verifyTicket_of_stale_checksum (c := sha256hex (checksumData t)) rfl
    intro heq
    exact hu (checksumData_user_inj (t := Auth.checksumTicket t)
      (sha256hex_inj heq))
  · apply verifyTicket_of_stale_checksum (c := sha256hex (checksumData t)) rfl
    intro heq
    exact ha (checksumData_account_inj (t := Auth.checksumTicket t)
      (sha256hex_inj heq))
  · apply verifyTicket_of_stale_checksum (c := sha256hex (checksumData t)) rfl
    intro heq
    exact hp (checksumData_permissions_inj (t := Auth.checksumTicket t)
      (sha256hex_inj heq))
  · apply verifyTicket_of_stale_checksum (c := sha256hex (checksumData t)) rfl
    intro heq
    exact hb (checksumData_restricted_inj (t := Auth.checksumTicket t)
      (sha256hex_inj heq))
  · apply verifyTicket_of_stale_checksum (c := sha256hex (checksumData t)) rfl
    intro heq
    exact he (checksumData_expiresAt_inj (t := Auth.checksumTicket t)
      (sha256hex_inj heq))
  · simp [Auth.verifyTicket, h2]

/-- C4 witness: two concrete single-field mutations of a concrete
stamped ticket. -/
theorem claim4_witness :
    Auth.verifyTicket
        {Auth.checksumTicket ⟨"u", "a", some ["read"], false, 7, none⟩ with
          user := "x"} = false ∧
    Auth.verifyTicket
        {Auth.checksumTicket ⟨"u", "a", some ["read"], false, 7, none⟩ with
          expiresAt := 8} = false :=
  ⟨(claim4_mutation_invalidates ⟨"u", "a", some ["read"], false, 7, none⟩).1
      "x" (by decide),
   (claim4_mutation_invalidates ⟨"u", "a", some ["read"], false, 7, none⟩).2.2.2.2.1
      8 (by decide)⟩

/-- C5 (confirmed): the resolved permission list is the deduplicated
union of the cached permission lists of exactly those role ids present
in the role map; unknown ids are silently skipped; the resulting set
does not depend on the order of the role ids; when the cache is
unpopulated the map used is the freshly built one, which is seeded
with `system/admin/member` mapping to themselves (for ids no stored
role overrides). -/
theorem claim5_role_permission_union :
    ∀ (db : Db) (s : AuthState) (roleIds : List String),
      ((Auth.getRolePermissions db s roleIds).1.Nodup) ∧
      (∀ p, p ∈ (Auth.getRolePermissions db s roleIds).1 ↔
        ∃ r ∈ roleIds, ∃ ps, objGet (rolesMapOf db s) r = some ps ∧ p ∈ ps) ∧
      (∀ roleIds', (∀ r, r ∈ roleIds ↔ r ∈ roleIds') →
        ∀ p, p ∈ (Auth.getRolePermissions db s roleIds).1 ↔
          p ∈ (Auth.getRolePermissions db s roleIds').1) ∧
      (s.roles = none → rolesMapOf db s = Auth.cacheRoles db) ∧
      (∀ seedId, (seedId = "system" ∨ seedId = "admin" ∨ seedId = "member") →
        (∀ d ∈ db.rolesFind, d.uuid ≠ seedId) →
        objGet (Auth.cacheRoles db) seedId = some [seedId]) := by
  intro db s roleIds
  refine ⟨nodup_collectPerms _ _, fun p => mem_collectPerms _ _ p, ?_, ?_, ?_⟩
  · intro roleIds' hperm p
    simp only [Auth.getRolePermissions]
    rw [mem_collectPerms, mem_collectPerms]
    constructor
    · rintro ⟨r, hr, hrest⟩
      exact ⟨r, (hperm r).1 hr, hrest⟩
    · rintro ⟨r, hr, hrest⟩
      exact ⟨r, (hperm r).2 hr, hrest⟩
  · intro h0
    simp [rolesMapOf, h0]
  · intro seedId hseed habs
    rw [Auth.cacheRoles, objGet_foldl_objSet_of_absent _ _ _ habs]
    rcases hseed with rfl | rfl | rfl <;> rfl

/-- C5 witness: with stored roles `r1 = {read}` and `r2 = {write}`,
resolving `["r1", "r2"]` from an unpopulated cache yields a
deduplicated list containing `write`. -/
theorem claim5_witness :
    ("write" ∈ (Auth.getRolePermissions dbFix AuthState.initial
        ["r1", "r2"]).1) ∧
    (Auth.getRolePermissions dbFix AuthState.initial ["r1", "r2"]).1.Nodup :=
  ⟨((claim5_role_permission_union dbFix AuthState.initial ["r1", "r2"]).2.1
      "write").2 ⟨"r2", by decide, ["write"], rfl, by decide⟩,
   (claim5_role_permission_union dbFix AuthState.initial ["r1", "r2"]).1⟩

/-- C10 (confirmed): on a cache miss `getTicket` resolves the account
through `Account.findOne`, which gates on the ticket the `Auth`
instance was constructed with: if that ticket's permissions contain
neither `"system"` nor `"admin"`, `getTicket` on a valid token whose
user is not cached fails with FORBIDDEN (trace of the `findOne` gate);
if the gate passes but storage has no account for the user, the
failure is the NOT_FOUND error thrown by `findOne`. -/
theorem claim10_account_resolution_gate :
    ∀ (auth : Auth) (db : Db) (s : AuthState) (p : TokenPayload)
      (iat exp now : Nat),
      now < exp →
      objGet s.userAccounts p.userId = none →
      ((∀ ps, auth.ticket.permissions = some ps →
          "system" ∉ ps ∧ "admin" ∉ ps) →
        ∃ e, Auth.getTicket auth db s (.signed p iat exp JWT_SECRET) now =
            .error e ∧ e.error = ServiceError.forbidden ∧
            e.trace = "m9cnhmxkft3rkkasfkgf") ∧
      (∀ ps, auth.ticket.permissions = some ps →
        ("system" ∈ ps ∨ "admin" ∈ ps) →
        db.accountFindOne p.userId = none →
        Auth.getTicket auth db s (.signed p iat exp JWT_SECRET) now =
          .error ⟨ServiceError.notFound, "Account not found",
                  "s6v5wnchZZu5gjqw763x"⟩) := by
  intro auth db s p iat exp now hlt hmiss
  constructor
  · intro hno
    have hallow : ∃ e, Auth.allow (some auth.ticket) ["system", "admin"]
        (some "m9cnhmxkft3rkkasfkgf") = .error e ∧
        e.error = ServiceError.forbidden ∧
        e.trace = "m9cnhmxkft3rkkasfkgf" := by
      cases hp : auth.ticket.permissions with
      | none =>
        refine ⟨⟨ServiceError.forbidden, "Permission denied",
          "m9cnhmxkft3rkkasfkgf"⟩, ?_, rfl, rfl⟩
        simp [Auth.allow, hp]
      | some ps =>
        have hcond : ¬ ((["system", "admin"] : List String).any
            fun q => ps.contains q) = true := by
          simp
          exact ⟨(hno ps hp).1, (hno ps hp).2⟩
        refine ⟨⟨ServiceError.forbidden,
          "Permission denied: " ++ auth.ticket.jsonRepr,
          "m9cnhmxkft3rkkasfkgf"⟩, ?_, rfl, rfl⟩
        simp only [Auth.allow, hp]
        rw [if_neg hcond]
        rfl
    obtain ⟨e, he, hcode, htrace⟩ := hallow
    refine ⟨e, ?_, hcode, htrace⟩
    simp only [Auth.getTicket, jwtVerify]
    rw [if_neg (by simp), if_neg (by omega)]
    simp only [Auth.getUserAccount, Auth.getRolePermissions, hmiss]
    simp only [Account.findOne, he]
  · intro ps hp hmem hnone
    simp only [Auth.getTicket, jwtVerify]
    rw [if_neg (by simp), if_neg (by omega)]
    have hcond : ((["system", "admin"] : List String).any
        fun q => ps.contains q) = true := by
      simp
      exact hmem
    have hallow : Auth.allow (some auth.ticket) ["system", "admin"]
        (some "m9cnhmxkft3rkkasfkgf") = .ok true := by
      simp only [Auth.allow, hp]
      rw [if_pos hcond]
    simp only [Auth.getUserAccount, Auth.getRolePermissions, hmiss]
    simp only [Account.findOne, hallow, hnone]

/-- C10 witness: a concrete `Auth` instance whose constructor ticket
lacks both `system` and `admin` is refused on a cache miss, while a
system instance with no stored account gets NOT_FOUND. -/
theorem claim10_witness :
    (∃ e, Auth.getTicket ⟨⟨"m", "acct", some ["member"], false, 0, none⟩⟩
        ⟨[], fun _ => none⟩ AuthState.initial
        (.signed ⟨"u9", [], false⟩ 0 900000 JWT_SECRET) 5 =
        .error e ∧ e.error = ServiceError.forbidden ∧
        e.trace = "m9cnhmxkft3rkkasfkgf") ∧
    Auth.getTicket ⟨Auth.getSystemTicket 0⟩ ⟨[], fun _ => none⟩
        AuthState.initial (.signed ⟨"u9", [], false⟩ 0 900000 JWT_SECRET) 5 =
      .error ⟨ServiceError.notFound, "Account not found",
              "s6v5wnchZZu5gjqw763x"⟩ :=
  ⟨(claim10_account_resolution_gate ⟨⟨"m", "acct", some ["member"], false, 0, none⟩⟩
      ⟨[], fun _ => none⟩ AuthState.initial ⟨"u9", [], false⟩ 0 900000 5
      (by decide) rfl).1
      (fun ps hps => by
        injection hps with h
        rw [← h]
        exact ⟨by decide, by decide⟩),
   (claim10_account_resolution_gate ⟨Auth.getSystemTicket 0⟩
      ⟨[], fun _ => none⟩ AuthState.initial ⟨"u9", [], false⟩ 0 900000 5
      (by decide) rfl).2 ["system"] rfl (Or.inl (by decide)) rfl⟩

/-- C6 (confirmed): the user→account cache is a strict FIFO of
capacity 1000: sequentially inserting 1001 distinct users into the
empty cache leaves the first-inserted user no longer cached while the
other 1000 remain resolvable from the cache alone (`getUserAccount`
answers a hit from the map, for ANY storage state, without changing
the cache — so a hit never changes the eviction order); a miss inserts
`(userId -> accountId)` through `cacheUserAccount`, which evicts the
oldest-inserted entry first when at capacity. -/
theorem claim6_fifo_cache :
    (∀ (u0 : String × String) (rest : List (String × String)),
        (u0 :: rest).length = MAX_USER_ACCOUNTS_BUFFER + 1 →
        ((u0 :: rest).map Prod.fst).Nodup →
        objGet (insertAllUA AuthState.initial (u0 :: rest)).userAccounts
            u0.1 = none ∧
        (∀ q ∈ rest,
          objGet (insertAllUA AuthState.initial (u0 :: rest)).userAccounts
            q.1 = some q.2)) ∧
    (∀ (auth : Auth) (db : Db) (s : AuthState) (u a : String),
        objGet s.userAccounts u = some a →
        Auth.getUserAccount auth db s u = .ok (a, s)) ∧
    (∀ (auth : Auth) (db : Db) (s : AuthState) (u : String)
        (acc : AccountDocument),
        objGet s.userAccounts u = none →
        Account.findOne auth.ticket db u = .ok acc →
        Auth.getUserAccount auth db s u =
          .ok (acc.uuid, Auth.cacheUserAccount s u acc.uuid)) := by
  refine ⟨?_, ?_, ?_⟩
  · intro u0 rest hlen hnd
    rcases List.eq_nil_or_concat rest with hre | ⟨mid, x, hx⟩
    · rw [hre] at hlen
      simp [MAX_USER_ACCOUNTS_BUFFER] at hlen
    · subst hx
      have hsplit : u0 :: mid.concat x = (u0 :: mid) ++ [x] := by
        simp [List.concat_eq_append]
      have hlen2 : (u0 :: mid).length ≤ MAX_USER_ACCOUNTS_BUFFER := by
        rw [hsplit] at hlen
        simp only [List.length_append, List.length_cons,
          List.length_singleton] at hlen ⊢
        omega
      have hnd0 := hnd
      rw [hsplit] at hnd0
      simp only [List.map_append, List.map_cons, List.map_nil,
        List.cons_append] at hnd0
      have hnd0' := List.nodup_cons.1 hnd0
      have hu0notin : u0.1 ∉ (mid.map Prod.fst ++ [x.1]) := by
        simpa using hnd0'.1
      have hndtail : (mid.map Prod.fst ++ [x.1]).Nodup := by
        simpa using hnd0'.2
      have hndfront : ((u0 :: mid).map Prod.fst).Nodup := by
        simp only [List.map_cons]
        rw [List.nodup_cons]
        constructor
        · intro hmem
          exact hu0notin (List.mem_append_left _ hmem)
        · have := List.nodup_append.1 hndtail
          exact this.1
      have hxfresh : ∀ p ∈ mid, p.1 ≠ x.1 := by
        intro p hp he
        have hd := (List.nodup_append.1 hndtail).2.2
        exact hd (he ▸ List.mem_map_of_mem Prod.fst hp) (List.mem_singleton.2 rfl)
      have hu0mid : ∀ p ∈ mid, p.1 ≠ u0.1 := by
        intro p hp he
        exact hu0notin (List.mem_append_left _
          (he ▸ List.mem_map_of_mem Prod.fst hp))
      have hu0x : x.1 ≠ u0.1 := by
        intro he
        exact hu0notin (List.mem_append_right _ (List.mem_singleton.2 he.symm))
      rw [hsplit, insertAllUA_append,
        insertAllUA_spec (u0 :: mid) hlen2 hndfront]
      have hstep : insertAllUA
          (⟨none, u0 :: mid, (u0 :: mid).map Prod.fst⟩ : AuthState) [x] =
          Auth.cacheUserAccount
            (⟨none, u0 :: mid, (u0 :: mid).map Prod.fst⟩ : AuthState)
            x.1 x.2 := rfl
      have hb : (⟨none, u0 :: mid, (u0 :: mid).map Prod.fst⟩ :
          AuthState).userAccountsBuffer = u0.1 :: mid.map Prod.fst := by
        simp
      rw [hstep, cacheUserAccount_at_cap hb (by
          have hl := hlen
          rw [hsplit] at hl
          simp at hl ⊢
          omega)]
      have hdel : objDelete (u0 :: mid) u0.1 = mid := by
        simp only [objDelete, List.filter_cons]
        rw [if_neg (by simp)]
        exact objDelete_of_absent hu0mid
      have hset : objSet mid x.1 x.2 = mid ++ [x] :=
        objSet_of_fresh hxfresh (x.2)
      constructor
      · simp only [hdel, hset]
        rw [objGet_eq_none_iff]
        intro p hp
        rcases List.mem_append.1 hp with h | h
        · exact hu0mid p h
        · rw [List.mem_singleton.1 h]
          exact hu0x
      · intro q hq
        simp only [hdel, hset]
        apply objGet_of_mem_nodup
        · simpa using hndtail
        · simpa using hq
  · intro auth db s u a h
    simp only [Auth.getUserAccount, h]
  · intro auth db s u acc hmiss hfind
    simp only [Auth.getUserAccount, hmiss, hfind]

/-- C6 witness: the 1001-distinct-user scenario evaluated on concrete
users `natToString 0 .. natToString 1000`: the first-inserted user is
no longer cached. -/
theorem claim6_witness :
    objGet (insertAllUA AuthState.initial (u0Fix :: restFix)).userAccounts
      u0Fix.1 = none :=
  (claim6_fifo_cache.1 u0Fix restFix
    (by simp [u0Fix, restFix, MAX_USER_ACCOUNTS_BUFFER])
    (by
      simp only [restFix, u0Fix, List.map_cons, List.map_map]
      rw [List.nodup_cons]
      constructor
      · intro hmem
        simp only [List.mem_map, List.mem_range, Function.comp] at hmem
        obtain ⟨i, -, hi⟩ := hmem
        exact Nat.succ_ne_zero i (natToString_inj hi)
      · exact List.Nodup.map
          (fun i j h => Nat.succ_injective (natToString_inj h))
          (List.nodup_range _))).1

end K2RBAC
